import Mathlib

/-
  Verification of the ESP_EEPROM versioned slot store (src/ESP_EEPROM.cpp,
  src/ESP_EEPROM.h) against its natural-language specification.

  Shallow embedding conventions:
  * The single flash sector is a byte map, Flash := Nat → Nat; every byte
    stored through a modelled operation is < 256.
  * Machine integers (uint16_t _offset, uint32_t _size, uint16_t
    _bitmapSize) are Nat, with an explicit % 2^16 where the source can
    overflow (the offset accumulator in the bitmap scan, the offset
    advance in commit).
  * spi_flash_erase_sector leaves every byte at the erased value eb
    (the hardware leaves all cells at one polarity; theorems about
    recovery assume eb = 0 or eb = 255).
  * Fallible flash primitives are driven by a FlashFaults record: a flag
    per operation of commit, telling whether that call succeeds. A failed
    operation leaves the flash unchanged. Each modelled operation also
    reports how many flash primitives it invoked, so that claims of the
    form "no flash operation is performed" are statable.
  * Freshly allocated (uninitialised) C buffers are modelled zero-filled;
    every path that later reads such a buffer first overwrites it.
-/

namespace ESPEEPROM

def SPI_FLASH_SEC_SIZE : Nat := 4096

def EEPROM_MIN_SIZE : Nat := 16

/-- One flash sector as a map from byte offset to byte value. -/
def Flash : Type := Nat → Nat

/-- Value of bit k of a byte value, as a Nat in {0, 1}; models masking with
(1 << k) and testing the result against zero. -/
def nthBit (x k : Nat) : Nat := x / 2 ^ k % 2

/-- Little-endian 32-bit read of 4 flash bytes, modelling
spi_flash_read of 4 bytes into a uint32. -/
def readWord32 (fl : Flash) (off : Nat) : Nat :=
  fl off % 256 + 256 * (fl (off + 1) % 256) + 65536 * (fl (off + 2) % 256) +
    16777216 * (fl (off + 3) % 256)

/-- Little-endian bytes of a 32-bit word, modelling spi_flash_write of a
uint32 variable. -/
def word32Bytes (w : Nat) : Nat → Nat := fun i => w / 256 ^ i % 256

/-- Overwrite len bytes of the flash starting at start with the bytes of
src, modelling a successful spi_flash_write. -/
def writeBytes (fl : Flash) (start : Nat) (src : Nat → Nat) (len : Nat) : Flash :=
  fun i => if start ≤ i ∧ i < start + len then src (i - start) else fl i

/-- In-memory state of EEPROMClass (ESP_EEPROM.h, private section).
The _sector field is not modelled: all flash addresses in the source are
relative to the one sector, which the Flash map represents directly.
_data and _bitmap are nullable C arrays, hence Option. -/
structure EEPROMState where
  data : Option (Nat → Nat)
  size : Nat
  bitmapSize : Nat
  bitmap : Option (Nat → Nat)
  offset : Nat
  dirty : Bool

/-- Outcome flags for the fallible flash primitives that one commit call
can reach, in source order. -/
structure FlashFaults where
  eraseOk : Bool
  sizeWriteOk : Bool
  dataWriteOk : Bool
  bitmapWriteOk : Bool

def allOk : FlashFaults := ⟨true, true, true, true⟩

/-- Result of an operation that can touch the flash: final in-memory
state, final flash contents, the boolean result, and the number of flash
primitives that were invoked. -/
structure CommitResult where
  st : EEPROMState
  fl : Flash
  ok : Bool
  ops : Nat

/-- EEPROMClass::computeBitmapSize. The source computes
nCopies = ((SEC - 4)*8 - 1) / (size*8 + 1), then
bitmapSize = ((nCopies + 1 + 31) / 8) & ~3 and returns bitmapSize & 0x7fff.
x & ~3 is x / 4 * 4 and x & 0x7fff is x % 32768. -/
def computeBitmapSize (size : Nat) : Nat :=
  let nCopies := ((SPI_FLASH_SEC_SIZE - 4) * 8 - 1) / (size * 8 + 1)
  let bitmapSize := (nCopies + 1 + 31) / 8 / 4 * 4
  bitmapSize % 32768

/-- Condition under which the scan loop of EEPROMClass::offsetFromBitmap
stops at global bit index g: the bit has the same value as the erased
state recorded in flash (the boolean argument). Byte index g / 8, bit
g % 8; the source walks a mask 1 << (g % 8) over byte g / 8. -/
def MatchCond (bm : Nat → Nat) (flash : Bool) (g : Nat) : Prop :=
  (flash = true ∧ nthBit (bm (g / 8)) (g % 8) ≠ 0) ∨
    (flash = false ∧ nthBit (bm (g / 8)) (g % 8) = 0)

instance (bm : Nat → Nat) (flash : Bool) (g : Nat) : Decidable (MatchCond bm flash g) := by
  unfold MatchCond; exact inferInstance

/-- Scan loop of EEPROMClass::offsetFromBitmap: n bits remain, g is the
global bit index, off the offset accumulator (uint16_t, hence the
% 65536 on each advance). Returns off at the first bit matching the
erased state, or the accumulated offset if the loop runs off the end. -/
def scanLoop (bm : Nat → Nat) (S : Nat) (flash : Bool) : Nat → Nat → Nat → Nat
  | 0, _, off => off
  | n + 1, g, off =>
    if MatchCond bm flash g then off
    else scanLoop bm S flash n (g + 1) ((off + S) % 65536)

/-- EEPROMClass::offsetFromBitmap. Bit 0 of the bitmap records the erased
polarity; bit 1 must be its opposite or the block is invalid (return 0).
The loop starts at bit 2 of byte 0 (mask 4), then walks every bit of the
remaining bytes: 8 * bitmapSize - 2 bits in all, from global index 2,
with the accumulator starting at 4 + bitmapSize. -/
def offsetFromBitmap (s : EEPROMState) : Nat :=
  match s.bitmap with
  | none => 0
  | some bm =>
    if s.bitmapSize = 0 then 0
    else
      let flash := nthBit (bm 0) 0 != 0
      if MatchCond bm flash 1 then 0
      else scanLoop bm s.size flash (8 * s.bitmapSize - 2) 2 (4 + s.bitmapSize)

/-- Bit number within the bitmap of the slot at the current offset:
bitNo = 1 + (offset - 4 - bitmapSize) / size, the first line of
EEPROMClass::flagUsedOffset. -/
def bitNoOf (s : EEPROMState) : Nat :=
  1 + (s.offset - 4 - s.bitmapSize) / s.size

/-- EEPROMClass::flagUsedOffset. Flips, in the in-memory bitmap, the bit
of the slot at s.offset (bit bitNoOf s, in byte bitNoOf s / 8).
If the erased polarity (bit 0 of byte 0) is 1 the bit is cleared
(b &= ~mask, that is b - 2^k * nthBit b k on a byte), else set
(b |= mask, that is b + 2^k * (1 - nthBit b k)). Returns the updated
bitmap and the changed byte index. -/
def flagUsedOffset (s : EEPROMState) (bm : Nat → Nat) : (Nat → Nat) × Nat :=
  (if nthBit (bm 0) 0 ≠ 0 then
    fun i => if i = bitNoOf s / 8 then
      bm (bitNoOf s / 8) -
        2 ^ (bitNoOf s % 8) * nthBit (bm (bitNoOf s / 8)) (bitNoOf s % 8)
    else bm i
  else
    fun i => if i = bitNoOf s / 8 then
      bm (bitNoOf s / 8) +
        2 ^ (bitNoOf s % 8) * (1 - nthBit (bm (bitNoOf s / 8)) (bitNoOf s % 8))
    else bm i,
  bitNoOf s / 8)

/-- Branch condition of EEPROMClass::commit choosing erase-and-restart:
no valid slot yet, or no room for one more copy. -/
def Full (s : EEPROMState) : Prop :=
  s.offset = 0 ∨ SPI_FLASH_SEC_SIZE < s.offset + s.size + s.size

instance (s : EEPROMState) : Decidable (Full s) := by
  unfold Full; exact inferInstance

/-- Tail of EEPROMClass::commit shared by both branches: write the data
buffer at s.offset (restoring oldOffset and failing if the write fails),
then flag the used slot in the bitmap and write back the containing
4-byte-aligned bitmap chunk. ops0 counts the flash primitives already
invoked by the caller. -/
def commitWrite (f : FlashFaults) (s : EEPROMState) (fl : Flash)
    (data bm : Nat → Nat) (oldOffset ops0 : Nat) : CommitResult :=
  if f.dataWriteOk = false then ⟨{ s with offset := oldOffset }, fl, false, ops0 + 1⟩
  else
    let fl1 := writeBytes fl s.offset data s.size
    let fu := flagUsedOffset s bm
    let bm1 := fu.1
    let aligned := fu.2 / 4 * 4
    let s1 := { s with bitmap := some bm1 }
    if f.bitmapWriteOk = false then ⟨s1, fl1, false, ops0 + 2⟩
    else
      ⟨{ s1 with dirty := false },
        writeBytes fl1 (4 + aligned) (fun i => bm1 (aligned + i)) 4, true, ops0 + 2⟩

/-- EEPROMClass::commit. Fails with no flash touched unless the store is
configured; succeeds with no flash touched when the buffer is clean.
A Full store is erased (erased byte value eb), the size header written,
the first 4 bitmap bytes read back from the erased flash and the rest of
the in-memory bitmap filled with that byte, and the offset pointed at the
first slot; otherwise the offset advances one slot (uint16_t add). -/
def commit (eb : Nat) (f : FlashFaults) (s : EEPROMState) (fl : Flash) : CommitResult :=
  match s.data, s.bitmap with
  | some data, some bm =>
    if s.size = 0 ∨ s.bitmapSize = 0 then ⟨s, fl, false, 0⟩
    else if s.dirty = false then ⟨s, fl, true, 0⟩
    else if Full s then
      if f.eraseOk = false then ⟨s, fl, false, 1⟩
      else
        let fl1 : Flash := fun _ => eb
        if f.sizeWriteOk = false then ⟨s, fl1, false, 2⟩
        else
          let fl2 := writeBytes fl1 0 (word32Bytes s.size) 4
          let bm1 : Nat → Nat := fun i => if i < 4 then fl2 (4 + i) else fl2 4
          commitWrite f { s with bitmap := some bm1, offset := 4 + s.bitmapSize }
            fl2 data bm1 s.offset 3
    else
      commitWrite f { s with offset := (s.offset + s.size) % 65536 } fl data bm s.offset 0
  | _, _ => ⟨s, fl, false, 0⟩

/-- EEPROMClass::begin. Sets the dirty flag, rejects a zero or oversized
request, clamps to the minimum size, aligns to 4 bytes, sizes the bitmap,
reallocates both buffers, then reads the stored size header. On mismatch
the flash is garbage for this size: offset 0. On match the bitmap is read
from flash and scanned; an offset of 0 or out of range marks the data
invalid, otherwise the current slot is read into the buffer and the store
is clean. -/
def beginOp (s : EEPROMState) (fl : Flash) (reqSize : Nat) : EEPROMState :=
  let s0 := { s with dirty := true }
  if reqSize = 0 ∨ SPI_FLASH_SEC_SIZE - 8 < reqSize then s0
  else
    let sz1 := if reqSize < EEPROM_MIN_SIZE then EEPROM_MIN_SIZE else reqSize
    let sz := (sz1 + 3) / 4 * 4
    let bms := computeBitmapSize sz
    let flashSize := readWord32 fl 0
    if flashSize ≠ sz then
      { s0 with
        size := sz, bitmapSize := bms, data := some (fun _ => 0),
        bitmap := some (fun _ => 0), offset := 0 }
    else
      let bm : Nat → Nat := fun i => fl (4 + i)
      let s1 := { s0 with
        size := sz, bitmapSize := bms, data := some (fun _ => 0),
        bitmap := some bm }
      let off := offsetFromBitmap s1
      if off = 0 ∨ SPI_FLASH_SEC_SIZE < off + sz then { s1 with offset := 0 }
      else { s1 with offset := off, data := some (fun i => fl (off + i)), dirty := false }

/-- EEPROMClass::end. Does nothing when unconfigured; otherwise commits,
releases both buffers and resets every field except the offset. -/
def endOp (eb : Nat) (f : FlashFaults) (s : EEPROMState) (fl : Flash) :
    EEPROMState × Flash :=
  if s.size = 0 then (s, fl)
  else
    let r := commit eb f s fl
    (⟨none, 0, 0, none, r.st.offset, false⟩, r.fl)

/-- EEPROMClass::read. Address is a C int; out-of-range or missing buffer
reads 0. -/
def read (s : EEPROMState) (address : Int) : Nat :=
  if address < 0 ∨ (s.size : Int) ≤ address then 0
  else
    match s.data with
    | none => 0
    | some d => d address.toNat

/-- EEPROMClass::write. Out-of-range or missing buffer is a no-op; the
dirty flag rises only when the stored byte actually changes. -/
def write (s : EEPROMState) (address : Int) (value : Nat) : EEPROMState :=
  if address < 0 ∨ (s.size : Int) ≤ address then s
  else
    match s.data with
    | none => s
    | some d =>
      if d address.toNat ≠ value then
        { s with
          data := some (fun i => if i = address.toNat then value else d i),
          dirty := true }
      else s

/-- EEPROMClass::percentUsed. Sentinel -1 when no valid slot exists or the
store is unconfigured; otherwise copy counting in integer arithmetic (the
else branch is only ever reached with 4 + bitmapSize ≤ offset, where C
int and Nat arithmetic agree). -/
def percentUsed (s : EEPROMState) : Int :=
  if s.offset = 0 ∨ s.size = 0 then -1
  else
    let nCopies := (SPI_FLASH_SEC_SIZE - 4 - s.bitmapSize) / s.size
    let copyNo := 1 + (s.offset - 4 - s.bitmapSize) / s.size
    ((100 * copyNo) / nCopies : Nat)

/-- Byte value assembled from eight bit values (each already 0 or 1),
bit b weighted 2 ^ b. -/
def byteOf (f : Nat → Nat) : Nat :=
  f 0 + 2 * f 1 + 4 * f 2 + 8 * f 3 + 16 * f 4 + 32 * f 5 + 64 * f 6 + 128 * f 7

/-- Expected value of global bitmap bit g after j slots have been flagged
in an epoch whose erase left the byte eb everywhere: bits 1..j are
flipped away from the erased pattern, every other bit still shows the
erased pattern. -/
def patBit (eb j g : Nat) : Nat :=
  if 1 ≤ g ∧ g ≤ j then 1 - nthBit eb (g % 8) else nthBit eb (g % 8)

/-- Byte i of the bitmap pattern with j slots flagged over erased byte
eb. -/
def bmPattern (eb j : Nat) (i : Nat) : Nat :=
  byteOf (fun b => patBit eb j (8 * i + b))

/-- Number of data slots the block holds for aligned size S, as derived
by the source arithmetic: floor((SEC - 4 - bitmapSize) / S). -/
def NSlots (S : Nat) : Nat :=
  (SPI_FLASH_SEC_SIZE - 4 - computeBitmapSize S) / S

/-- Arithmetic facts about the layout produced by computeBitmapSize for
one valid aligned size S, checked once for all 1019 such sizes: the
bitmap is a positive 4-aligned byte count, holds one bit per slot plus
the reference bit, at least one slot fits, and no smaller positive
4-aligned bitmap would hold every slot plus the reference bit. -/
def layoutOK (S : Nat) : Prop :=
  4 ≤ computeBitmapSize S ∧ computeBitmapSize S % 4 = 0 ∧ 1 ≤ NSlots S ∧
    NSlots S + 1 ≤ 8 * computeBitmapSize S ∧
    4 + computeBitmapSize S + S ≤ SPI_FLASH_SEC_SIZE ∧
    ∀ m, m < computeBitmapSize S → 0 < m → m % 4 = 0 →
      ¬((SPI_FLASH_SEC_SIZE - 4 - m) / S + 1 ≤ 8 * m)

instance (S : Nat) : Decidable (layoutOK S) := by
  unfold layoutOK NSlots; exact inferInstance

/-- Coupling invariant between the in-memory store and the flash sector
for a store configured at aligned size S over a block whose erase leaves
byte eb. It packages exactly what a caller obtains from a begin call and
what every successful commit re-establishes: either no valid slot exists
yet (and the buffer is dirty), or slot j - 1 is current, the size header
is on flash, and both the in-memory and on-flash bitmaps show the
j-slots-flagged pattern. A clean buffer moreover mirrors the current
slot. -/
structure StoreInv (eb S : Nat) (s : EEPROMState) (fl : Flash) (d b : Nat → Nat) : Prop where
  size_eq : s.size = S
  data_eq : s.data = some d
  bitmap_eq : s.bitmap = some b
  bms_eq : s.bitmapSize = computeBitmapSize S
  align4 : S % 4 = 0
  atLeast : 16 ≤ S
  atMost : S ≤ SPI_FLASH_SEC_SIZE - 8
  eb01 : eb = 0 ∨ eb = 255
  offset_inv : (s.offset = 0 ∧ s.dirty = true) ∨
    ∃ j, 1 ≤ j ∧ j ≤ NSlots S ∧
      s.offset = 4 + computeBitmapSize S + (j - 1) * S ∧
      readWord32 fl 0 = S ∧
      (∀ i, i < computeBitmapSize S → b i = bmPattern eb j i) ∧
      (∀ i, i < computeBitmapSize S → fl (4 + i) = bmPattern eb j i)
  clean_sync : s.dirty = false → s.offset ≠ 0 ∧ ∀ i, i < S → fl (s.offset + i) = d i

/-- EEPROMClass::wipe. Fails with nothing touched unless begin succeeded
once; otherwise reallocates both buffers, erases the sector and leaves
the store dirty with no valid slot, reporting the erase result. -/
def wipe (eb : Nat) (eraseOk : Bool) (s : EEPROMState) (fl : Flash) :
    EEPROMState × Flash × Bool × Nat :=
  if s.size = 0 ∨ s.bitmapSize = 0 then (s, fl, false, 0)
  else
    let s1 : EEPROMState :=
      { s with
        bitmap := some (fun _ => 0), data := some (fun _ => 0),
        dirty := true, offset := 0 }
    if eraseOk then (s1, fun _ => eb, true, 1) else (s1, fl, false, 1)

/-! Basic facts about bits and bytes. -/

lemma nthBit_le_one (x k : Nat) : nthBit x k ≤ 1 := by
  have := Nat.mod_lt (x / 2 ^ k) (show 0 < 2 by omega)
  unfold nthBit; omega

lemma patBit_le_one (eb j g : Nat) : patBit eb j g ≤ 1 := by
  unfold patBit
  have := nthBit_le_one eb (g % 8)
  split <;> omega

lemma nthBit_byteOf (f : Nat → Nat) (hf : ∀ b, b < 8 → f b ≤ 1) (k : Nat) (hk : k < 8) :
    nthBit (byteOf f) k = f k := by
  have h0 := hf 0 (by omega); have h1 := hf 1 (by omega)
  have h2 := hf 2 (by omega); have h3 := hf 3 (by omega)
  have h4 := hf 4 (by omega); have h5 := hf 5 (by omega)
  have h6 := hf 6 (by omega); have h7 := hf 7 (by omega)
  unfold nthBit byteOf
  interval_cases k <;> norm_num <;> omega

lemma byteOf_update (f : Nat → Nat) (hf : ∀ b, b < 8 → f b ≤ 1) (k v : Nat)
    (hk : k < 8) :
    byteOf (fun b => if b = k then v else f b) = byteOf f - 2 ^ k * f k + 2 ^ k * v := by
  have h0 := hf 0 (by omega); have h1 := hf 1 (by omega)
  have h2 := hf 2 (by omega); have h3 := hf 3 (by omega)
  have h4 := hf 4 (by omega); have h5 := hf 5 (by omega)
  have h6 := hf 6 (by omega); have h7 := hf 7 (by omega)
  unfold byteOf
  interval_cases k <;> norm_num <;> omega

lemma byteOf_congr (f g : Nat → Nat) (h : ∀ b, b < 8 → f b = g b) :
    byteOf f = byteOf g := by
  unfold byteOf
  rw [h 0 (by omega), h 1 (by omega), h 2 (by omega), h 3 (by omega),
    h 4 (by omega), h 5 (by omega), h 6 (by omega), h 7 (by omega)]

lemma nthBit_bmPattern (eb j i b : Nat) (hb : b < 8) :
    nthBit (bmPattern eb j i) b = patBit eb j (8 * i + b) := by
  unfold bmPattern
  rw [nthBit_byteOf _ (fun c _ => patBit_le_one eb j (8 * i + c)) b hb]

lemma nthBit_bmPattern_global (eb j g : Nat) :
    nthBit (bmPattern eb j (g / 8)) (g % 8) = patBit eb j g := by
  have h8 : g % 8 < 8 := Nat.mod_lt g (by omega)
  rw [nthBit_bmPattern eb j (g / 8) (g % 8) h8]
  rw [Nat.div_add_mod g 8]

/-! Facts about the flash word helpers. -/

lemma readWord32_write32 (fl : Flash) (w : Nat) (hw : w < 4294967296) :
    readWord32 (writeBytes fl 0 (word32Bytes w) 4) 0 = w := by
  simp only [readWord32, writeBytes, word32Bytes]
  norm_num
  omega

lemma readWord32_eq_of (fl fl2 : Flash) (h : ∀ i, i < 4 → fl2 i = fl i) :
    readWord32 fl2 0 = readWord32 fl 0 := by
  unfold readWord32
  rw [h 0 (by omega), h 1 (by omega), h 2 (by omega), h 3 (by omega)]

/-! The layout facts, checked for every valid aligned size. -/

set_option maxHeartbeats 4000000 in
set_option maxRecDepth 100000 in
lemma layoutOK_all : ∀ i, i < 1019 → layoutOK (16 + 4 * i) := by decide

lemma layoutOK_valid (S : Nat) (h4 : S % 4 = 0) (h16 : 16 ≤ S)
    (hub : S ≤ SPI_FLASH_SEC_SIZE - 8) : layoutOK S := by
  have hub' : S ≤ 4088 := by
    simpa [SPI_FLASH_SEC_SIZE] using hub
  have hS : S = 16 + 4 * ((S - 16) / 4) := by omega
  rw [hS]
  exact layoutOK_all _ (by omega)

/-! Behaviour of the bitmap scan loop. -/

lemma scanLoop_stop (bm : Nat → Nat) (S : Nat) (flash : Bool) :
    ∀ t n g off, t < n →
      (∀ i, i < t → ¬ MatchCond bm flash (g + i)) →
      MatchCond bm flash (g + t) →
      off + t * S < 65536 →
      scanLoop bm S flash n g off = off + t * S := by
  intro t
  induction t with
  | zero =>
    intro n g off hn _ hm _
    match n, hn with
    | n + 1, _ =>
      simp only [scanLoop]
      rw [if_pos (show MatchCond bm flash g by simpa using hm)]
      omega
  | succ t ih =>
    intro n g off hn hno hm hw
    match n, hn with
    | n + 1, hn =>
      simp only [scanLoop]
      rw [if_neg (show ¬ MatchCond bm flash g by simpa using hno 0 (by omega))]
      rw [Nat.succ_mul] at hw ⊢
      rw [Nat.mod_eq_of_lt (by omega)]
      rw [show off + (t * S + S) = off + S + t * S by omega]
      refine ih n (g + 1) (off + S) (by omega) ?_ ?_ (by omega)
      · intro i hi
        have := hno (i + 1) (by omega)
        rwa [show g + (i + 1) = g + 1 + i by omega] at this
      · rwa [show g + 1 + t = g + (t + 1) by omega]

lemma scanLoop_all (bm : Nat → Nat) (S : Nat) (flash : Bool) :
    ∀ n g off, (∀ i, i < n → ¬ MatchCond bm flash (g + i)) →
      off + n * S < 65536 →
      scanLoop bm S flash n g off = off + n * S := by
  intro n
  induction n with
  | zero => intro g off _ _; simp [scanLoop]
  | succ n ih =>
    intro g off hno hw
    simp only [scanLoop]
    rw [if_neg (show ¬ MatchCond bm flash g by simpa using hno 0 (by omega))]
    rw [Nat.succ_mul] at hw ⊢
    rw [Nat.mod_eq_of_lt (by omega)]
    rw [show off + (n * S + S) = off + S + n * S by omega]
    refine ih (g + 1) (off + S) ?_ (by omega)
    intro i hi
    have := hno (i + 1) (by omega)
    rwa [show g + (i + 1) = g + 1 + i by omega] at this

lemma nthBit_zero_byte (k : Nat) : nthBit 0 k = 0 := by
  simp [nthBit]

lemma nthBit_255 (k : Nat) (hk : k < 8) : nthBit 255 k = 1 := by
  interval_cases k <;> decide

/-- On a bitmap showing the j-slots-flagged pattern, the scan stop
condition (bit equals the erased polarity recorded in bit 0) holds
exactly at the bits that are not flagged. -/
lemma matchCond_pattern (eb : Nat) (heb : eb = 0 ∨ eb = 255) (j M : Nat) (bb : Nat → Nat)
    (hbb : ∀ i, i < M → bb i = bmPattern eb j i) (hM : 0 < M) (g : Nat) (hg : g < 8 * M) :
    MatchCond bb (nthBit (bb 0) 0 != 0) g ↔ ¬(1 ≤ g ∧ g ≤ j) := by
  have hb0 : bb 0 = bmPattern eb j 0 := hbb 0 hM
  have hbyte : bb (g / 8) = bmPattern eb j (g / 8) := hbb _ (by omega)
  have hpol : nthBit (bb 0) 0 = nthBit eb 0 := by
    rw [hb0]
    have := nthBit_bmPattern eb j 0 0 (by omega)
    simp only [Nat.mul_zero, Nat.zero_add] at this
    rw [this]
    simp [patBit]
  have hbit : nthBit (bb (g / 8)) (g % 8) = patBit eb j g := by
    rw [hbyte, nthBit_bmPattern_global]
  rcases heb with h | h <;> subst h
  · have hz : nthBit (bb 0) 0 = 0 := by rw [hpol, nthBit_zero_byte]
    rw [show ((nthBit (bb 0) 0 != 0) = false) by simp [hz]]
    unfold MatchCond
    rw [hbit]
    unfold patBit
    rw [nthBit_zero_byte]
    constructor
    · rintro (⟨h1, _⟩ | ⟨_, h2⟩)
      · exact absurd h1 (by simp)
      · intro hf; rw [if_pos hf] at h2; omega
    · intro hf; right; refine ⟨rfl, ?_⟩; rw [if_neg hf]
  · have hz : nthBit (bb 0) 0 = 1 := by rw [hpol, nthBit_255 0 (by omega)]
    rw [show ((nthBit (bb 0) 0 != 0) = true) by simp [hz]]
    unfold MatchCond
    rw [hbit]
    unfold patBit
    rw [nthBit_255 (g % 8) (Nat.mod_lt g (by omega))]
    constructor
    · rintro (⟨_, h2⟩ | ⟨h1, _⟩)
      · intro hf; rw [if_pos hf] at h2; omega
      · exact absurd h1 (by simp)
    · intro hf; left; refine ⟨rfl, ?_⟩; rw [if_neg hf]; omega

/-- The recovery scan on a store whose bitmap shows the j-slots-flagged
pattern (1 ≤ j, bit j + 1 the first unflagged one when it exists) selects
the offset of slot j - 1. When j fills the whole bitmap the loop runs off
the end and returns the same accumulated offset. -/
lemma offsetFromBitmap_pattern (eb S M j : Nat) (bb : Nat → Nat)
    (dOpt : Option (Nat → Nat)) (off0 : Nat) (dr : Bool)
    (heb : eb = 0 ∨ eb = 255) (hM : 4 ≤ M)
    (hbb : ∀ i, i < M → bb i = bmPattern eb j i)
    (hj1 : 1 ≤ j) (hjb : j ≤ 8 * M - 1)
    (hwrap : 4 + M + (j - 1) * S < 65536) :
    offsetFromBitmap ⟨dOpt, S, M, some bb, off0, dr⟩ = 4 + M + (j - 1) * S := by
  have hmc : ∀ g, g < 8 * M →
      (MatchCond bb (nthBit (bb 0) 0 != 0) g ↔ ¬(1 ≤ g ∧ g ≤ j)) :=
    fun g hg => matchCond_pattern eb heb j M bb hbb (by omega) g hg
  show (if M = 0 then 0
    else
      let flash := nthBit (bb 0) 0 != 0
      if MatchCond bb flash 1 then 0
      else scanLoop bb S flash (8 * M - 2) 2 (4 + M)) = 4 + M + (j - 1) * S
  rw [if_neg (by omega)]
  simp only
  rw [if_neg (by rw [hmc 1 (by omega)]; omega)]
  by_cases hj8 : j ≤ 8 * M - 2
  · have := scanLoop_stop bb S (nthBit (bb 0) 0 != 0) (j - 1) (8 * M - 2) 2 (4 + M)
      (by omega)
      (fun i hi => by rw [hmc (2 + i) (by omega)]; omega)
      (by rw [hmc (2 + (j - 1)) (by omega)]; omega)
      (by omega)
    rw [this]
  · have hj' : j = 8 * M - 1 := by omega
    have := scanLoop_all bb S (nthBit (bb 0) 0 != 0) (8 * M - 2) 2 (4 + M)
      (fun i hi => by rw [hmc (2 + i) (by omega)]; omega)
      (by rw [show 8 * M - 2 = j - 1 by omega]; omega)
    rw [this, show 8 * M - 2 = j - 1 by omega]

/-! Facts about the flagged-bitmap pattern. -/

lemma bmPattern_beyond (eb j i : Nat) (h : j < 8 * i) :
    bmPattern eb j i = byteOf (fun b => nthBit eb b) := by
  unfold bmPattern
  apply byteOf_congr
  intro b hb
  unfold patBit
  rw [if_neg (by omega)]
  congr 1
  omega

lemma byteOf_bits_eb (eb : Nat) (heb : eb = 0 ∨ eb = 255) :
    byteOf (fun b => nthBit eb b) = eb := by
  rcases heb with h | h <;> subst h <;> decide

/-- Bytes other than the one holding bit j + 1 are the same in the j and
j + 1 patterns. -/
lemma pattern_step_other (eb j i : Nat) (h : i ≠ (j + 1) / 8) :
    bmPattern eb j i = bmPattern eb (j + 1) i := by
  unfold bmPattern
  apply byteOf_congr
  intro b hb
  unfold patBit
  have hne : 8 * i + b ≠ j + 1 := by
    intro he
    apply h
    omega
  by_cases hc : 1 ≤ 8 * i + b ∧ 8 * i + b ≤ j
  · rw [if_pos hc, if_pos (by omega)]
  · rw [if_neg hc, if_neg (by omega)]

/-- Flipping bit j + 1 of the byte holding it, by the arithmetic the
source uses (clear when the erased polarity is 1, set when it is 0),
turns the j pattern into the j + 1 pattern. -/
lemma pattern_step (eb j : Nat) (heb : eb = 0 ∨ eb = 255) :
    (if nthBit eb 0 ≠ 0 then
      bmPattern eb j ((j + 1) / 8) -
        2 ^ ((j + 1) % 8) * nthBit (bmPattern eb j ((j + 1) / 8)) ((j + 1) % 8)
    else
      bmPattern eb j ((j + 1) / 8) +
        2 ^ ((j + 1) % 8) * (1 - nthBit (bmPattern eb j ((j + 1) / 8)) ((j + 1) % 8)))
      = bmPattern eb (j + 1) ((j + 1) / 8) := by
  have hk : (j + 1) % 8 < 8 := Nat.mod_lt _ (by omega)
  have hfk : patBit eb j (j + 1) = nthBit eb ((j + 1) % 8) := by
    unfold patBit
    rw [if_neg (by omega)]
  have hbk : nthBit (bmPattern eb j ((j + 1) / 8)) ((j + 1) % 8) = nthBit eb ((j + 1) % 8) := by
    rw [nthBit_bmPattern eb j _ _ hk, Nat.div_add_mod (j + 1) 8, hfk]
  have hnew : bmPattern eb (j + 1) ((j + 1) / 8) =
      byteOf (fun b => if b = (j + 1) % 8 then 1 - nthBit eb ((j + 1) % 8)
        else patBit eb j (8 * ((j + 1) / 8) + b)) := by
    unfold bmPattern
    apply byteOf_congr
    intro b hb
    by_cases hbk2 : b = (j + 1) % 8
    · subst hbk2
      rw [if_pos rfl]
      unfold patBit
      rw [Nat.div_add_mod (j + 1) 8, if_pos (by omega)]
    · rw [if_neg hbk2]
      have hne : 8 * ((j + 1) / 8) + b ≠ j + 1 := by
        intro he
        apply hbk2
        omega
      unfold patBit
      by_cases hc : 1 ≤ 8 * ((j + 1) / 8) + b ∧ 8 * ((j + 1) / 8) + b ≤ j
      · rw [if_pos hc, if_pos (by omega)]
      · rw [if_neg hc, if_neg (by omega)]
  rw [hbk, hnew, byteOf_update _ (fun c _ => patBit_le_one eb j _) _ _ hk]
  have hfval : patBit eb j (8 * ((j + 1) / 8) + (j + 1) % 8) = nthBit eb ((j + 1) % 8) := by
    rw [Nat.div_add_mod (j + 1) 8]
    exact hfk
  rw [hfval]
  unfold bmPattern
  rcases heb with h | h <;> subst h
  · rw [if_neg (by simp [nthBit_zero_byte])]
    simp [nthBit_zero_byte]
  · rw [if_pos (by rw [nthBit_255 0 (by omega)]; omega)]
    rw [nthBit_255 _ hk]
    simp

/-! Behaviour of begin over a block left by a successful commit. -/

lemma read_some (s : EEPROMState) (d : Nat → Nat) (a : Nat)
    (hd : s.data = some d) (ha : a < s.size) :
    read s (a : Nat) = d a := by
  unfold read
  rw [if_neg (by push_neg; omega), hd]
  simp

/-- A begin call at the configured size, over a flash block holding the
size header and the j-slots-flagged bitmap pattern, recovers slot j - 1:
it loads the slot into the buffer and comes back clean. -/
lemma begin_recovers (eb S j : Nat) (fl : Flash) (s2 : EEPROMState)
    (h4 : S % 4 = 0) (h16 : 16 ≤ S) (hub : S ≤ SPI_FLASH_SEC_SIZE - 8)
    (heb : eb = 0 ∨ eb = 255)
    (hj1 : 1 ≤ j) (hjN : j ≤ NSlots S)
    (hhdr : readWord32 fl 0 = S)
    (hbm : ∀ i, i < computeBitmapSize S → fl (4 + i) = bmPattern eb j i) :
    beginOp s2 fl S =
      ⟨some (fun i => fl (4 + computeBitmapSize S + (j - 1) * S + i)), S,
        computeBitmapSize S, some (fun i => fl (4 + i)),
        4 + computeBitmapSize S + (j - 1) * S, false⟩ := by
  obtain ⟨hM4, hMal, hN1, hNM, hMS, _⟩ := layoutOK_valid S h4 h16 hub
  have hub' : S ≤ 4088 := by simpa [SPI_FLASH_SEC_SIZE] using hub
  have hNS : NSlots S * S ≤ 4096 - 4 - computeBitmapSize S := Nat.div_mul_le_self _ _
  have hjS : (j - 1) * S + S ≤ NSlots S * S := by
    have : (j - 1) + 1 ≤ NSlots S := by omega
    calc (j - 1) * S + S = ((j - 1) + 1) * S := by ring
    _ ≤ NSlots S * S := Nat.mul_le_mul_right S this
  simp only [beginOp]
  rw [if_neg (show ¬(S = 0 ∨ SPI_FLASH_SEC_SIZE - 8 < S) by
    simp only [SPI_FLASH_SEC_SIZE]; omega)]
  rw [if_neg (show ¬ S < EEPROM_MIN_SIZE by simp only [EEPROM_MIN_SIZE]; omega)]
  rw [show (S + 3) / 4 * 4 = S by omega]
  rw [if_neg (show ¬ readWord32 fl 0 ≠ S by simp [hhdr])]
  have hscan := offsetFromBitmap_pattern eb S (computeBitmapSize S) j
    (fun i => fl (4 + i)) (some (fun _ => 0)) s2.offset true heb hM4
    (fun i hi => hbm i hi) hj1 (by unfold NSlots SPI_FLASH_SEC_SIZE at *; omega)
    (by unfold NSlots SPI_FLASH_SEC_SIZE at *; omega)
  rw [hscan]
  rw [if_neg (show ¬(4 + computeBitmapSize S + (j - 1) * S = 0 ∨
      SPI_FLASH_SEC_SIZE < 4 + computeBitmapSize S + (j - 1) * S + S) by
    unfold NSlots SPI_FLASH_SEC_SIZE at *; omega)]

/-! Reduction lemmas for commit and its helpers. -/

lemma writeBytes_at (fl : Flash) (start : Nat) (src : Nat → Nat) (len i : Nat)
    (h1 : start ≤ i) (h2 : i < start + len) :
    writeBytes fl start src len i = src (i - start) := by
  unfold writeBytes
  rw [if_pos ⟨h1, h2⟩]

lemma writeBytes_out (fl : Flash) (start : Nat) (src : Nat → Nat) (len i : Nat)
    (h : i < start ∨ start + len ≤ i) :
    writeBytes fl start src len i = fl i := by
  unfold writeBytes
  rw [if_neg (by omega)]

lemma bmPattern_zero (eb i : Nat) :
    bmPattern eb 0 i = byteOf (fun b => nthBit eb b) := by
  unfold bmPattern
  apply byteOf_congr
  intro b hb
  unfold patBit
  rw [if_neg (by omega)]
  congr 1
  omega

lemma pattern_step_clear (j : Nat) :
    bmPattern 255 j ((j + 1) / 8) -
      2 ^ ((j + 1) % 8) * nthBit (bmPattern 255 j ((j + 1) / 8)) ((j + 1) % 8)
      = bmPattern 255 (j + 1) ((j + 1) / 8) := by
  have h := pattern_step 255 j (Or.inr rfl)
  rwa [if_pos (by rw [nthBit_255 0 (by omega)]; omega)] at h

lemma pattern_step_set (j : Nat) :
    bmPattern 0 j ((j + 1) / 8) +
      2 ^ ((j + 1) % 8) * (1 - nthBit (bmPattern 0 j ((j + 1) / 8)) ((j + 1) % 8))
      = bmPattern 0 (j + 1) ((j + 1) / 8) := by
  have h := pattern_step 0 j (Or.inl rfl)
  rwa [if_neg (by simp [nthBit_zero_byte])] at h

lemma bitNoOf_eq (s : EEPROMState) (j : Nat)
    (hoff : s.offset = 4 + s.bitmapSize + j * s.size) (hS : s.size ≠ 0) :
    bitNoOf s = j + 1 := by
  unfold bitNoOf
  rw [hoff, show 4 + s.bitmapSize + j * s.size - 4 - s.bitmapSize = j * s.size by omega,
    Nat.mul_div_cancel j (by omega : 0 < s.size)]
  omega

/-- Flagging the slot bit on a bitmap showing the j pattern changes the
byte holding bit j + 1 to its value in the j + 1 pattern and leaves every
other byte alone. -/
lemma flagUsedOffset_pattern (eb j : Nat) (s : EEPROMState) (bmf : Nat → Nat)
    (heb : eb = 0 ∨ eb = 255)
    (hbit : bitNoOf s = j + 1)
    (h0 : bmf 0 = bmPattern eb j 0)
    (hB : bmf ((j + 1) / 8) = bmPattern eb j ((j + 1) / 8)) :
    (flagUsedOffset s bmf).2 = (j + 1) / 8 ∧
    ∀ i, (flagUsedOffset s bmf).1 i =
      if i = (j + 1) / 8 then bmPattern eb (j + 1) ((j + 1) / 8) else bmf i := by
  have hp0 : nthBit (bmf 0) 0 = nthBit eb 0 := by
    rw [h0]
    have h := nthBit_bmPattern eb j 0 0 (by omega)
    simp only [Nat.mul_zero, Nat.zero_add] at h
    rw [h]
    unfold patBit
    rw [if_neg (by omega)]
  unfold flagUsedOffset
  rw [hbit]
  refine ⟨rfl, ?_⟩
  intro i
  rcases heb with h | h <;> subst h
  · rw [if_neg (by rw [hp0, nthBit_zero_byte]; simp)]
    dsimp only
    by_cases hi : i = (j + 1) / 8
    · rw [if_pos hi, if_pos hi, hB, pattern_step_set]
    · rw [if_neg hi, if_neg hi]
  · rw [if_pos (by rw [hp0, nthBit_255 0 (by omega)]; omega)]
    dsimp only
    by_cases hi : i = (j + 1) / 8
    · rw [if_pos hi, if_pos hi, hB, pattern_step_clear]
    · rw [if_neg hi, if_neg hi]

lemma commitWrite_ok (f : FlashFaults) (s : EEPROMState) (fl : Flash)
    (data bm : Nat → Nat) (oldOffset ops0 : Nat)
    (h1 : f.dataWriteOk = true) (h2 : f.bitmapWriteOk = true) :
    commitWrite f s fl data bm oldOffset ops0 =
      ⟨{ s with bitmap := some (flagUsedOffset s bm).1, dirty := false },
        writeBytes (writeBytes fl s.offset data s.size)
          (4 + (flagUsedOffset s bm).2 / 4 * 4)
          (fun i => (flagUsedOffset s bm).1 ((flagUsedOffset s bm).2 / 4 * 4 + i)) 4,
        true, ops0 + 2⟩ := by
  simp [commitWrite, h1, h2]

lemma commit_clean (eb : Nat) (f : FlashFaults) (s : EEPROMState) (fl : Flash)
    (d b : Nat → Nat) (hd : s.data = some d) (hb : s.bitmap = some b)
    (hsz : s.size ≠ 0) (hbsz : s.bitmapSize ≠ 0) (hdirty : s.dirty = false) :
    commit eb f s fl = ⟨s, fl, true, 0⟩ := by
  obtain ⟨dt, sz, bsz, bq, off, dy⟩ := s
  dsimp only at hd hb hsz hbsz hdirty
  subst hd
  subst hb
  subst hdirty
  simp [commit, hsz, hbsz]

lemma commit_full_red (eb : Nat) (f : FlashFaults) (s : EEPROMState) (fl : Flash)
    (d b : Nat → Nat) (hd : s.data = some d) (hb : s.bitmap = some b)
    (hsz : s.size ≠ 0) (hbsz : s.bitmapSize ≠ 0) (hdirty : s.dirty = true)
    (hf : Full s) (he : f.eraseOk = true) (hsw : f.sizeWriteOk = true) :
    commit eb f s fl =
      commitWrite f { s with bitmap := some (fun _ => eb), offset := 4 + s.bitmapSize }
        (writeBytes (fun _ => eb) 0 (word32Bytes s.size) 4) d (fun _ => eb)
        s.offset 3 := by
  have hbm1 : (fun i => if i < 4 then writeBytes (fun _ => eb) 0 (word32Bytes s.size) 4 (4 + i)
      else writeBytes (fun _ => eb) 0 (word32Bytes s.size) 4 4) = (fun _ : Nat => eb) := by
    funext i
    by_cases h : i < 4
    · rw [if_pos h]
      unfold writeBytes
      rw [if_neg (by omega)]
    · rw [if_neg h]
      unfold writeBytes
      rw [if_neg (by omega)]
  obtain ⟨dt, sz, bsz, bq, off, dy⟩ := s
  dsimp only at hd hb hsz hbsz hdirty hf hbm1 ⊢
  subst hd
  subst hb
  subst hdirty
  simp only [commit, hbm1]
  rw [if_neg (by omega), if_neg (by simp), if_pos hf, if_neg (by simp [he]),
    if_neg (by simp [hsw])]

lemma commit_nonfull_red (eb : Nat) (f : FlashFaults) (s : EEPROMState) (fl : Flash)
    (d b : Nat → Nat) (hd : s.data = some d) (hb : s.bitmap = some b)
    (hsz : s.size ≠ 0) (hbsz : s.bitmapSize ≠ 0) (hdirty : s.dirty = true)
    (hnf : ¬ Full s) :
    commit eb f s fl =
      commitWrite f { s with offset := (s.offset + s.size) % 65536 } fl d b
        s.offset 0 := by
  obtain ⟨dt, sz, bsz, bq, off, dy⟩ := s
  dsimp only at hd hb hsz hbsz hdirty hnf ⊢
  subst hd
  subst hb
  subst hdirty
  simp only [commit]
  rw [if_neg (by omega), if_neg (by simp), if_neg hnf]

/-- A successful commit (all flash primitives succeeding) from a dirty
configured store leaves a clean store whose slot j - 1 is current, with
the size header, the j-pattern bitmap and the buffer contents all on
flash — that is, it re-establishes the recovery preconditions. -/
lemma commit_dirty_inv (eb S : Nat) (s : EEPROMState) (fl : Flash) (d b : Nat → Nat)
    (hInv : StoreInv eb S s fl d b) (hdirty : s.dirty = true) :
    ∃ j, 1 ≤ j ∧ j ≤ NSlots S ∧
      (commit eb allOk s fl).ok = true ∧
      (commit eb allOk s fl).st.size = S ∧
      (commit eb allOk s fl).st.data = some d ∧
      (commit eb allOk s fl).st.dirty = false ∧
      (commit eb allOk s fl).st.bitmapSize = computeBitmapSize S ∧
      (∃ b2, (commit eb allOk s fl).st.bitmap = some b2) ∧
      (commit eb allOk s fl).st.offset = 4 + computeBitmapSize S + (j - 1) * S ∧
      readWord32 (commit eb allOk s fl).fl 0 = S ∧
      (∀ i, i < computeBitmapSize S →
        (commit eb allOk s fl).fl (4 + i) = bmPattern eb j i) ∧
      (∀ i, i < S →
        (commit eb allOk s fl).fl (4 + computeBitmapSize S + (j - 1) * S + i) = d i) := by
  obtain ⟨hsz, hd, hb, hbms, h4, h16, hub, heb, hoffinv, hclean⟩ := hInv
  obtain ⟨hM4, hMal, hN1, hNM, hMS, _⟩ := layoutOK_valid S h4 h16 hub
  have hub' : S ≤ 4088 := by simpa [SPI_FLASH_SEC_SIZE] using hub
  have hMS' : 4 + computeBitmapSize S + S ≤ 4096 := by
    simpa [SPI_FLASH_SEC_SIZE] using hMS
  have hpat1 : ∀ i, 1 ≤ i → bmPattern eb 1 i = eb := fun i hi => by
    rw [bmPattern_beyond eb 1 i (by omega), byteOf_bits_eb eb heb]
  by_cases hfull : Full s
  · -- erase-and-restart branch: the new current slot is slot 0, j = 1
    rw [commit_full_red eb allOk s fl d b hd hb (by rw [hsz]; omega)
      (by rw [hbms]; omega) hdirty hfull rfl rfl]
    rw [commitWrite_ok allOk _ _ d _ _ _ rfl rfl]
    have hbitno : bitNoOf { s with bitmap := some (fun _ => eb), offset := 4 + s.bitmapSize } = 0 + 1 := by
      apply bitNoOf_eq
      · dsimp only
        omega
      · dsimp only
        rw [hsz]
        omega
    obtain ⟨hfu2, hfu1⟩ := flagUsedOffset_pattern eb 0
      { s with bitmap := some (fun _ => eb), offset := 4 + s.bitmapSize }
      (fun _ => eb) heb hbitno
      (by rw [bmPattern_zero, byteOf_bits_eb eb heb])
      (by rw [bmPattern_zero, byteOf_bits_eb eb heb])
    have hal : (flagUsedOffset { s with bitmap := some (fun _ => eb), offset := 4 + s.bitmapSize } (fun _ => eb)).2 / 4 * 4 = 0 := by
      rw [hfu2]
    refine ⟨1, by omega, hN1, rfl, hsz, hd, rfl, hbms, ⟨_, rfl⟩, ?_, ?_, ?_⟩
    · -- the offset points at the first slot
      try dsimp only
      omega
    · -- the size header is on flash
      try dsimp only
      rw [readWord32_eq_of (writeBytes (fun _ => eb) 0 (word32Bytes s.size) 4) _ ?_]
      · rw [readWord32_write32 _ _ (by omega), hsz]
      · intro i hi
        rw [hal]
        rw [writeBytes_out _ _ _ _ _ (by (try dsimp only); omega)]
        rw [writeBytes_out _ _ _ _ _ (by (try dsimp only); omega)]
    · constructor
      · -- the bitmap shows the 1-slot pattern
        intro i hi
        try dsimp only
        rw [hal]
        by_cases hin : i < 4
        · rw [writeBytes_at _ _ _ _ _ (by (try dsimp only); omega)
            (by (try dsimp only); omega)]
          rw [show 4 + i - (4 + 0) = i by omega]
          rw [hfu1 (0 + i)]
          by_cases h0 : 0 + i = 0
          · rw [if_pos h0, show i = 0 by omega]
          · rw [if_neg h0]
            rw [hpat1 i (by omega)]
        · rw [writeBytes_out _ _ _ _ _ (by (try dsimp only); omega)]
          rw [writeBytes_out _ _ _ _ _ (by (try dsimp only); omega)]
          rw [writeBytes_out _ _ _ _ _ (by (try dsimp only); omega)]
          rw [hpat1 i (by omega)]
      · -- the buffer contents are in slot 0 on flash
        intro i hi
        try dsimp only
        rw [hal]
        rw [writeBytes_out _ _ _ _ _ (by (try dsimp only); omega)]
        rw [writeBytes_at _ _ _ _ _ (by (try dsimp only); omega)
          (by (try dsimp only); omega)]
        try dsimp only
        rw [show 4 + computeBitmapSize S + (1 - 1) * S + i - (4 + s.bitmapSize) = i by
          omega]
  · -- append branch: slot j - 1 was current, slot j becomes current
    rcases hoffinv with ⟨h0, _⟩ | ⟨j, hj1, hjN, hoff, hhdr, hbmem, hbmfl⟩
    · exact absurd (Or.inl h0) hfull
    obtain ⟨t, rfl⟩ : ∃ t, j = t + 1 := ⟨j - 1, by omega⟩
    simp only [Nat.add_sub_cancel] at hoff
    have hS0 : 0 < S := by omega
    have hroom : s.offset + s.size + s.size ≤ 4096 := by
      unfold Full SPI_FLASH_SEC_SIZE at hfull
      push_neg at hfull
      omega
    have htexp : (t + 1) * S = t * S + S := by ring
    have htexp2 : (t + 2) * S = t * S + S + S := by ring
    have ht21 : (t + 2 - 1) * S = t * S + S := by
      rw [show t + 2 - 1 = t + 1 by omega]
      ring
    have hNexp : NSlots S * S ≤ 4096 - 4 - computeBitmapSize S := by
      unfold NSlots SPI_FLASH_SEC_SIZE
      exact Nat.div_mul_le_self _ _
    have ht2 : t + 2 ≤ NSlots S := by
      unfold NSlots SPI_FLASH_SEC_SIZE
      rw [Nat.le_div_iff_mul_le hS0]
      omega
    have hbyteM : (t + 2) / 8 < computeBitmapSize S := by
      rw [Nat.div_lt_iff_lt_mul (by omega : (0 : Nat) < 8)]
      omega
    have hoffS : (s.offset + s.size) % 65536 = s.offset + s.size :=
      Nat.mod_eq_of_lt (by omega)
    rw [commit_nonfull_red eb allOk s fl d b hd hb (by omega) (by omega) hdirty hfull]
    rw [commitWrite_ok allOk _ _ d _ _ _ rfl rfl]
    have hbitno : bitNoOf { s with offset := (s.offset + s.size) % 65536 } = (t + 1) + 1 := by
      apply bitNoOf_eq
      · dsimp only
        rw [hoffS, hoff, hbms, hsz]
        omega
      · dsimp only
        omega
    obtain ⟨hfu2, hfu1⟩ := flagUsedOffset_pattern eb (t + 1)
      { s with offset := (s.offset + s.size) % 65536 } b heb hbitno
      (hbmem 0 (by omega))
      (hbmem ((t + 1 + 1) / 8) (by omega))
    have halin : (t + 1 + 1) / 8 / 4 * 4 ≤ (t + 1 + 1) / 8 ∧
        (t + 1 + 1) / 8 < (t + 1 + 1) / 8 / 4 * 4 + 4 ∧
        (t + 1 + 1) / 8 / 4 * 4 + 4 ≤ computeBitmapSize S := by omega
    have hal : (flagUsedOffset { s with offset := (s.offset + s.size) % 65536 } b).2 / 4 * 4
        = (t + 1 + 1) / 8 / 4 * 4 := by rw [hfu2]
    refine ⟨t + 2, by omega, ht2, rfl, hsz, hd, rfl, hbms, ⟨_, rfl⟩, ?_, ?_, ?_⟩
    · -- the offset advanced one slot
      try dsimp only
      rw [hoffS]
      omega
    · -- the size header is untouched on flash
      try dsimp only
      rw [readWord32_eq_of fl _ ?_]
      · exact hhdr
      · intro i hi
        rw [hal]
        rw [writeBytes_out _ _ _ _ _ (by (try dsimp only); omega)]
        rw [writeBytes_out _ _ _ _ _ (by (try dsimp only); rw [hoffS]; omega)]
    · constructor
      · -- the bitmap shows the pattern with one more slot flagged
        intro i hi
        try dsimp only
        rw [hal]
        by_cases hin : (t + 1 + 1) / 8 / 4 * 4 ≤ i ∧ i < (t + 1 + 1) / 8 / 4 * 4 + 4
        · rw [writeBytes_at _ _ _ _ _ (by omega) (by omega)]
          rw [show 4 + i - (4 + (t + 1 + 1) / 8 / 4 * 4) = i - (t + 1 + 1) / 8 / 4 * 4 by
            omega]
          rw [show (t + 1 + 1) / 8 / 4 * 4 + (i - (t + 1 + 1) / 8 / 4 * 4) = i by omega]
          rw [hfu1 i]
          by_cases hbi : i = (t + 1 + 1) / 8
          · rw [if_pos hbi, hbi]
          · rw [if_neg hbi]
            rw [hbmem i hi]
            exact pattern_step_other eb (t + 1) i hbi
        · rw [writeBytes_out _ _ _ _ _ (by omega)]
          rw [writeBytes_out _ _ _ _ _ (by (try dsimp only); rw [hoffS]; omega)]
          rw [hbmfl i hi]
          exact pattern_step_other eb (t + 1) i (by omega)
      · -- the buffer contents are in the new slot on flash
        intro i hi
        try dsimp only
        rw [hal]
        rw [writeBytes_out _ _ _ _ _ (by omega)]
        rw [writeBytes_at _ _ _ _ _ (by (try dsimp only); rw [hoffS]; omega)
          (by (try dsimp only); rw [hoffS]; omega)]
        try dsimp only
        rw [hoffS]
        rw [show 4 + computeBitmapSize S + (t + 2 - 1) * S + i - (s.offset + s.size) = i by
          omega]

/-! Final glue lemmas. -/

lemma write_spec (s : EEPROMState) (d : Nat → Nat) (a v : Nat)
    (hd : s.data = some d) (ha : a < s.size) :
    write s (a : Nat) v =
      if d a ≠ v then
        { s with data := some (fun i => if i = a then v else d i), dirty := true }
      else s := by
  unfold write
  rw [if_neg (by push_neg; exact ⟨Int.natCast_nonneg a, by exact_mod_cast ha⟩)]
  rw [hd]
  simp only [Int.toNat_natCast]

lemma endOp_clean (eb : Nat) (f : FlashFaults) (s : EEPROMState) (fl : Flash)
    (d b : Nat → Nat) (hd : s.data = some d) (hb : s.bitmap = some b)
    (hsz : s.size ≠ 0) (hbsz : s.bitmapSize ≠ 0) (hdirty : s.dirty = false) :
    endOp eb f s fl = (⟨none, 0, 0, none, s.offset, false⟩, fl) := by
  unfold endOp
  rw [if_neg hsz, commit_clean eb f s fl d b hd hb hsz hbsz hdirty]

/-- After a restart, a begin call over a flash block holding the size
header, the j-pattern bitmap, and data d1 in slot j - 1, reads back
d1. -/
lemma restart_reads (eb S j a : Nat) (flx : Flash) (st2 : EEPROMState) (d1 : Nat → Nat)
    (h4 : S % 4 = 0) (h16 : 16 ≤ S) (hub : S ≤ SPI_FLASH_SEC_SIZE - 8)
    (heb : eb = 0 ∨ eb = 255) (hj1 : 1 ≤ j) (hjN : j ≤ NSlots S)
    (hhdr : readWord32 flx 0 = S)
    (hbm : ∀ i, i < computeBitmapSize S → flx (4 + i) = bmPattern eb j i)
    (hslot : ∀ i, i < S → flx (4 + computeBitmapSize S + (j - 1) * S + i) = d1 i)
    (ha : a < S) :
    read (beginOp st2 flx S) (a : Nat) = d1 a := by
  rw [begin_recovers eb S j flx st2 h4 h16 hub heb hj1 hjN hhdr hbm]
  rw [read_some _ (fun i => flx (4 + computeBitmapSize S + (j - 1) * S + i)) a rfl ha]
  exact hslot a ha

lemma commit_erasefail (eb : Nat) (f : FlashFaults) (s : EEPROMState) (fl : Flash)
    (d b : Nat → Nat) (hd : s.data = some d) (hb : s.bitmap = some b)
    (hsz : s.size ≠ 0) (hbsz : s.bitmapSize ≠ 0) (hdirty : s.dirty = true)
    (hf : Full s) (he : f.eraseOk = false) :
    commit eb f s fl = ⟨s, fl, false, 1⟩ := by
  obtain ⟨dt, sz, bsz, bq, off, dy⟩ := s
  dsimp only at hd hb hsz hbsz hdirty hf
  subst hd
  subst hb
  subst hdirty
  simp [commit, hsz, hbsz, hf, he]

lemma commit_sizefail (eb : Nat) (f : FlashFaults) (s : EEPROMState) (fl : Flash)
    (d b : Nat → Nat) (hd : s.data = some d) (hb : s.bitmap = some b)
    (hsz : s.size ≠ 0) (hbsz : s.bitmapSize ≠ 0) (hdirty : s.dirty = true)
    (hf : Full s) (he : f.eraseOk = true) (hsw : f.sizeWriteOk = false) :
    commit eb f s fl = ⟨s, fun _ => eb, false, 2⟩ := by
  obtain ⟨dt, sz, bsz, bq, off, dy⟩ := s
  dsimp only at hd hb hsz hbsz hdirty hf
  subst hd
  subst hb
  subst hdirty
  simp [commit, hsz, hbsz, hf, he, hsw]

lemma commitWrite_datafail (f : FlashFaults) (s : EEPROMState) (fl : Flash)
    (data bm : Nat → Nat) (oldOffset ops0 : Nat) (h : f.dataWriteOk = false) :
    commitWrite f s fl data bm oldOffset ops0 =
      ⟨{ s with offset := oldOffset }, fl, false, ops0 + 1⟩ := by
  simp [commitWrite, h]

lemma commitWrite_bitmapfail (f : FlashFaults) (s : EEPROMState) (fl : Flash)
    (data bm : Nat → Nat) (oldOffset ops0 : Nat)
    (h1 : f.dataWriteOk = true) (h2 : f.bitmapWriteOk = false) :
    commitWrite f s fl data bm oldOffset ops0 =
      ⟨{ s with bitmap := some (flagUsedOffset s bm).1 },
        writeBytes fl s.offset data s.size, false, ops0 + 2⟩ := by
  simp [commitWrite, h1, h2]

/-- A commit call that reports success leaves a configured, clean
store. -/
lemma commit_ok_state (eb : Nat) (f : FlashFaults) (s : EEPROMState) (fl : Flash)
    (h : (commit eb f s fl).ok = true) :
    (commit eb f s fl).st.size ≠ 0 ∧ (commit eb f s fl).st.bitmapSize ≠ 0 ∧
    (∃ d, (commit eb f s fl).st.data = some d) ∧
    (∃ b, (commit eb f s fl).st.bitmap = some b) ∧
    (commit eb f s fl).st.dirty = false := by
  obtain ⟨dt, sz, bsz, bq, off, dy⟩ := s
  cases dt with
  | none => simp [commit] at h
  | some d =>
    cases bq with
    | none => simp [commit] at h
    | some b =>
      by_cases hg : sz = 0 ∨ bsz = 0
      · simp [commit, hg] at h
      · push_neg at hg
        cases dy with
        | false =>
          rw [commit_clean eb f ⟨some d, sz, bsz, some b, off, false⟩ fl d b rfl rfl
            hg.1 hg.2 rfl] at h ⊢
          exact ⟨hg.1, hg.2, ⟨d, rfl⟩, ⟨b, rfl⟩, rfl⟩
        | true =>
          cases hdw : f.dataWriteOk with
          | false =>
            by_cases hfull : Full ⟨some d, sz, bsz, some b, off, true⟩
            · cases he : f.eraseOk with
              | false =>
                rw [commit_erasefail eb f _ fl d b rfl rfl hg.1 hg.2 rfl hfull he] at h
                simp at h
              | true =>
                cases hsw : f.sizeWriteOk with
                | false =>
                  rw [commit_sizefail eb f _ fl d b rfl rfl hg.1 hg.2 rfl hfull he hsw] at h
                  simp at h
                | true =>
                  rw [commit_full_red eb f _ fl d b rfl rfl hg.1 hg.2 rfl hfull he hsw,
                    commitWrite_datafail _ _ _ _ _ _ _ hdw] at h
                  simp at h
            · rw [commit_nonfull_red eb f _ fl d b rfl rfl hg.1 hg.2 rfl hfull,
                commitWrite_datafail _ _ _ _ _ _ _ hdw] at h
              simp at h
          | true =>
            cases hbw : f.bitmapWriteOk with
            | false =>
              by_cases hfull : Full ⟨some d, sz, bsz, some b, off, true⟩
              · cases he : f.eraseOk with
                | false =>
                  rw [commit_erasefail eb f _ fl d b rfl rfl hg.1 hg.2 rfl hfull he] at h
                  simp at h
                | true =>
                  cases hsw : f.sizeWriteOk with
                  | false =>
                    rw [commit_sizefail eb f _ fl d b rfl rfl hg.1 hg.2 rfl hfull he hsw] at h
                    simp at h
                  | true =>
                    rw [commit_full_red eb f _ fl d b rfl rfl hg.1 hg.2 rfl hfull he hsw,
                      commitWrite_bitmapfail _ _ _ _ _ _ _ hdw hbw] at h
                    simp at h
              · rw [commit_nonfull_red eb f _ fl d b rfl rfl hg.1 hg.2 rfl hfull,
                  commitWrite_bitmapfail _ _ _ _ _ _ _ hdw hbw] at h
                simp at h
            | true =>
              by_cases hfull : Full ⟨some d, sz, bsz, some b, off, true⟩
              · cases he : f.eraseOk with
                | false =>
                  rw [commit_erasefail eb f _ fl d b rfl rfl hg.1 hg.2 rfl hfull he] at h
                  simp at h
                | true =>
                  cases hsw : f.sizeWriteOk with
                  | false =>
                    rw [commit_sizefail eb f _ fl d b rfl rfl hg.1 hg.2 rfl hfull he hsw] at h
                    simp at h
                  | true =>
                    rw [commit_full_red eb f _ fl d b rfl rfl hg.1 hg.2 rfl hfull he hsw,
                      commitWrite_ok _ _ _ _ _ _ _ hdw hbw] at h ⊢
                    exact ⟨hg.1, hg.2, ⟨d, rfl⟩, ⟨_, rfl⟩, rfl⟩
              · rw [commit_nonfull_red eb f _ fl d b rfl rfl hg.1 hg.2 rfl hfull,
                  commitWrite_ok _ _ _ _ _ _ _ hdw hbw] at h ⊢
                exact ⟨hg.1, hg.2, ⟨d, rfl⟩, ⟨_, rfl⟩, rfl⟩

/-! The claims. -/

/-- C1. Durability round-trip: from any configured store (StoreInv is the
coupling between a configured store and its flash block), the sequence
write(a, v); commit(); end(); begin(S) — a restart over the same block,
every flash operation succeeding — leaves read(a) = v. -/
theorem durability_roundtrip (eb S a v : Nat) (s : EEPROMState) (fl : Flash)
    (d b : Nat → Nat) (hInv : StoreInv eb S s fl d b) (ha : a < S) (hv : v < 256) :
    read (beginOp
      (endOp eb allOk (commit eb allOk (write s (a : Nat) v) fl).st
        (commit eb allOk (write s (a : Nat) v) fl).fl).1
      (endOp eb allOk (commit eb allOk (write s (a : Nat) v) fl).st
        (commit eb allOk (write s (a : Nat) v) fl).fl).2 S) (a : Nat) = v := by
  have hsz := hInv.size_eq
  have hd := hInv.data_eq
  have h4 := hInv.align4
  have h16 := hInv.atLeast
  have hub := hInv.atMost
  have heb := hInv.eb01
  obtain ⟨b0, hb⟩ : ∃ b0, s.bitmap = some b0 := ⟨b, hInv.bitmap_eq⟩
  have hM4 : 4 ≤ computeBitmapSize S := (layoutOK_valid S h4 h16 hub).1
  have hs1 := write_spec s d a v hd (by omega)
  -- in either case the buffer after the write is d1 with d1 a = v
  by_cases hchg : d a ≠ v
  · -- the write changed the buffer and raised the dirty flag
    rw [if_pos hchg] at hs1
    have hInv1 : StoreInv eb S (write s (a : Nat) v) fl
        (fun i => if i = a then v else d i) b := by
      rw [hs1]
      refine ⟨hInv.size_eq, rfl, hInv.bitmap_eq, hInv.bms_eq, h4, h16, hub, heb, ?_, ?_⟩
      · rcases hInv.offset_inv with ⟨ho, _⟩ | hrest
        · exact Or.inl ⟨ho, rfl⟩
        · exact Or.inr hrest
      · intro hfalse
        simp at hfalse
    obtain ⟨j, hj1, hjN, hok, hstsz, hstd, hstdirty, hstbms, ⟨b2, hstbm⟩, hstoff,
      hhdr2, hbm2, hslot2⟩ := commit_dirty_inv eb S _ fl _ b hInv1 (by rw [hs1])
    rw [endOp_clean eb allOk _ _ _ b2 hstd hstbm (by omega) (by omega) hstdirty]
    rw [restart_reads eb S j a _ _ (fun i => if i = a then v else d i)
      h4 h16 hub heb hj1 hjN hhdr2 hbm2 (fun i hi => hslot2 i hi) ha]
    simp
  · -- the write left the buffer unchanged
    push_neg at hchg
    rw [if_neg (by simpa using hchg)] at hs1
    rw [hs1]
    by_cases hdirty : s.dirty = true
    · obtain ⟨j, hj1, hjN, hok, hstsz, hstd, hstdirty, hstbms, ⟨b2, hstbm⟩, hstoff,
        hhdr2, hbm2, hslot2⟩ := commit_dirty_inv eb S s fl d b hInv hdirty
      rw [endOp_clean eb allOk _ _ _ b2 hstd hstbm (by omega) (by omega) hstdirty]
      rw [restart_reads eb S j a _ _ d
        h4 h16 hub heb hj1 hjN hhdr2 hbm2 hslot2 ha]
      exact hchg
    · have hdirty' : s.dirty = false := by
        cases hsd : s.dirty
        · rfl
        · exact absurd hsd hdirty
      obtain ⟨hoffne, hsync⟩ := hInv.clean_sync hdirty'
      rcases hInv.offset_inv with ⟨ho, _⟩ | ⟨j, hj1, hjN, hoff, hhdr, _, hbmfl⟩
      · exact absurd ho hoffne
      rw [commit_clean eb allOk s fl d b hd hInv.bitmap_eq (by omega)
        (by rw [hInv.bms_eq]; omega) hdirty']
      rw [endOp_clean eb allOk s fl d b hd hInv.bitmap_eq (by omega)
        (by rw [hInv.bms_eq]; omega) hdirty']
      rw [restart_reads eb S j a fl _ d h4 h16 hub heb hj1 hjN hhdr hbmfl
        (by rw [← hoff, hsz] at *; intro i hi; exact hsync i (by omega)) ha]
      exact hchg

/-- Witness for C1 at a concrete fresh store: S = 16, a = 3, v = 7, over
an all-zero flash with erased byte 255. -/
theorem durability_roundtrip_witness :
    read (beginOp
      (endOp 255 allOk
        (commit 255 allOk (write ⟨some (fun _ => 0), 16, 32, some (fun _ => 255), 0, true⟩
          (3 : Nat) 7) (fun _ => 0)).st
        (commit 255 allOk (write ⟨some (fun _ => 0), 16, 32, some (fun _ => 255), 0, true⟩
          (3 : Nat) 7) (fun _ => 0)).fl).1
      (endOp 255 allOk
        (commit 255 allOk (write ⟨some (fun _ => 0), 16, 32, some (fun _ => 255), 0, true⟩
          (3 : Nat) 7) (fun _ => 0)).st
        (commit 255 allOk (write ⟨some (fun _ => 0), 16, 32, some (fun _ => 255), 0, true⟩
          (3 : Nat) 7) (fun _ => 0)).fl).2 16) (3 : Nat) = 7 := by
  apply durability_roundtrip 255 16 3 7 _ _ (fun _ => 0) (fun _ => 255)
  · constructor
    · rfl
    · rfl
    · rfl
    · rfl
    · decide
    · decide
    · decide
    · exact Or.inr rfl
    · exact Or.inl ⟨rfl, rfl⟩
    · intro h
      simp at h
  · decide
  · decide

/-- C2. Bitmap scan correctness: on a store whose size field matches S
and whose bitmap has bits 1..k (k at least 1) flipped away from the
erased value recorded in bit 0, every higher bit at the erased value,
the recovery scan selects the offset of slot k - 1, namely
4 + M + (k - 1) * S. -/
theorem bitmap_scan_selects (S M k : Nat) (bb : Nat → Nat) (e : Bool)
    (h4 : S % 4 = 0) (h16 : 16 ≤ S) (hub : S ≤ SPI_FLASH_SEC_SIZE - 8)
    (hM : M = computeBitmapSize S)
    (hk1 : 1 ≤ k) (hkN : k ≤ NSlots S)
    (hbb : ∀ i, i < M → bb i = bmPattern (if e then 255 else 0) k i) :
    offsetFromBitmap ⟨none, S, M, some bb, 0, true⟩ = 4 + M + (k - 1) * S := by
  subst hM
  obtain ⟨hM4, hMal, hN1, hNM, hMS, _⟩ := layoutOK_valid S h4 h16 hub
  have hNexp : NSlots S * S ≤ 4096 - 4 - computeBitmapSize S := by
    unfold NSlots SPI_FLASH_SEC_SIZE
    exact Nat.div_mul_le_self _ _
  have hkexp : ((k - 1) + 1) * S = (k - 1) * S + S := by ring
  have hkS : ((k - 1) + 1) * S ≤ NSlots S * S :=
    Nat.mul_le_mul_right S (by omega)
  have hMS' : 4 + computeBitmapSize S + S ≤ 4096 := by
    simpa [SPI_FLASH_SEC_SIZE] using hMS
  exact offsetFromBitmap_pattern (if e then 255 else 0) S (computeBitmapSize S) k bb
    none 0 true (by cases e <;> simp) hM4 hbb hk1 (by omega) (by omega)

/-- Witness for C2: S = 16, M = 32, k = 1 over erased polarity 1; the
scan selects slot 0 at offset 36. -/
theorem bitmap_scan_selects_witness :
    offsetFromBitmap ⟨none, 16, 32, some (bmPattern 255 1), 0, true⟩ =
      4 + 32 + (1 - 1) * 16 := by
  apply bitmap_scan_selects 16 32 1 (bmPattern 255 1) true
  · decide
  · decide
  · decide
  · decide
  · decide
  · decide
  · intro i hi
    rfl

/-- C3. Commit failure atomicity: on a configured dirty store, if the
erase fails in the full branch, or the data-slot write fails in either
branch, commit reports failure and the in-memory offset is its
pre-commit value. -/
theorem commit_failure_atomic (eb : Nat) (f : FlashFaults) (s : EEPROMState) (fl : Flash)
    (d b : Nat → Nat) (hd : s.data = some d) (hb : s.bitmap = some b)
    (hsz : s.size ≠ 0) (hbsz : s.bitmapSize ≠ 0) (hdirty : s.dirty = true)
    (hfail : (Full s ∧ f.eraseOk = false) ∨ f.dataWriteOk = false) :
    (commit eb f s fl).ok = false ∧ (commit eb f s fl).st.offset = s.offset := by
  by_cases hfull : Full s
  · cases he : f.eraseOk with
    | false =>
      rw [commit_erasefail eb f s fl d b hd hb hsz hbsz hdirty hfull he]
      exact ⟨rfl, rfl⟩
    | true =>
      have hdw : f.dataWriteOk = false := by
        rcases hfail with ⟨_, he2⟩ | h2
        · rw [he] at he2
          exact absurd he2 (by simp)
        · exact h2
      cases hsw : f.sizeWriteOk with
      | false =>
        rw [commit_sizefail eb f s fl d b hd hb hsz hbsz hdirty hfull he hsw]
        exact ⟨rfl, rfl⟩
      | true =>
        rw [commit_full_red eb f s fl d b hd hb hsz hbsz hdirty hfull he hsw,
          commitWrite_datafail _ _ _ _ _ _ _ hdw]
        exact ⟨rfl, rfl⟩
  · have hdw : f.dataWriteOk = false := by
      rcases hfail with ⟨h1, _⟩ | h2
      · exact absurd h1 hfull
      · exact h2
    rw [commit_nonfull_red eb f s fl d b hd hb hsz hbsz hdirty hfull,
      commitWrite_datafail _ _ _ _ _ _ _ hdw]
    exact ⟨rfl, rfl⟩

/-- Witness for C3: a fresh dirty store, erase failing; commit fails and
the offset stays 0. -/
theorem commit_failure_atomic_witness :
    (commit 255 ⟨false, true, true, true⟩
      ⟨some (fun _ => 0), 16, 32, some (fun _ => 255), 0, true⟩ (fun _ => 0)).ok = false ∧
    (commit 255 ⟨false, true, true, true⟩
      ⟨some (fun _ => 0), 16, 32, some (fun _ => 255), 0, true⟩ (fun _ => 0)).st.offset
      = (⟨some (fun _ => 0), 16, 32, some (fun _ => 255), 0, true⟩ : EEPROMState).offset := by
  apply commit_failure_atomic 255 ⟨false, true, true, true⟩ _ _ (fun _ => 0) (fun _ => 255)
    rfl rfl (by decide) (by decide) rfl
  exact Or.inl ⟨Or.inl rfl, rfl⟩

/-- C5. Bitmap sizing is correct and minimal: for every valid aligned
slot size S, computeBitmapSize S yields an M with
floor((B - 4 - M) / S) + 1 ≤ 8 M, and no smaller positive 4-aligned M
satisfies that inequality. -/
theorem bitmap_sizing_minimal (S : Nat) (h4 : S % 4 = 0) (h16 : 16 ≤ S)
    (hub : S ≤ SPI_FLASH_SEC_SIZE - 8) :
    (SPI_FLASH_SEC_SIZE - 4 - computeBitmapSize S) / S + 1 ≤ 8 * computeBitmapSize S ∧
    ∀ m, 0 < m → m % 4 = 0 → m < computeBitmapSize S →
      ¬((SPI_FLASH_SEC_SIZE - 4 - m) / S + 1 ≤ 8 * m) := by
  obtain ⟨_, _, _, hNM, _, hmin⟩ := layoutOK_valid S h4 h16 hub
  refine ⟨?_, ?_⟩
  · unfold NSlots at hNM
    exact hNM
  · intro m hm h4m hlt
    exact hmin m hlt hm h4m

/-- Witness for C5 at the minimum size S = 16 (M = 32). -/
theorem bitmap_sizing_minimal_witness :
    (SPI_FLASH_SEC_SIZE - 4 - computeBitmapSize 16) / 16 + 1 ≤ 8 * computeBitmapSize 16 :=
  (bitmap_sizing_minimal 16 (by decide) (by decide) (by decide)).1

/-- C4 counterexample: a rejected begin call does change the state — it
sets the dirty flag — so a store that was clean before the call is not
left exactly as it was. -/
theorem begin_reject_counterexample :
    beginOp ⟨some (fun _ => 0), 16, 32, some (fun _ => 255), 36, false⟩ (fun _ => 0) 0
      ≠ ⟨some (fun _ => 0), 16, 32, some (fun _ => 255), 36, false⟩ := by
  intro h
  have hdy := congrArg EEPROMState.dirty h
  simp [beginOp] at hdy

/-- C4, amended. A begin call with a rejected size (zero, or above
block size minus 8) performs no allocation and changes nothing except
the dirty flag, which it sets. -/
theorem begin_reject_amended (s : EEPROMState) (fl : Flash) (n : Nat)
    (h : n = 0 ∨ SPI_FLASH_SEC_SIZE - 8 < n) :
    beginOp s fl n = { s with dirty := true } := by
  unfold beginOp
  rw [if_pos h]

/-- Witness for the amended C4 at n = 0 on a concrete clean store. -/
theorem begin_reject_amended_witness :
    beginOp ⟨some (fun _ => 0), 16, 32, some (fun _ => 255), 36, false⟩ (fun _ => 0) 0
      = ⟨some (fun _ => 0), 16, 32, some (fun _ => 255), 36, true⟩ :=
  begin_reject_amended ⟨some (fun _ => 0), 16, 32, some (fun _ => 255), 36, false⟩
    (fun _ => 0) 0 (Or.inl rfl)

/-- C6. Commit idempotence: if a commit succeeds, an immediately
following commit with no intervening write performs no flash operation
and returns success. -/
theorem commit_idempotent (eb eb2 : Nat) (f f2 : FlashFaults) (s : EEPROMState)
    (fl : Flash) (hok : (commit eb f s fl).ok = true) :
    (commit eb2 f2 (commit eb f s fl).st (commit eb f s fl).fl).ok = true ∧
    (commit eb2 f2 (commit eb f s fl).st (commit eb f s fl).fl).ops = 0 := by
  obtain ⟨hsz, hbsz, ⟨d, hd⟩, ⟨b, hb⟩, hdirty⟩ := commit_ok_state eb f s fl hok
  rw [commit_clean eb2 f2 _ _ d b hd hb hsz hbsz hdirty]
  exact ⟨rfl, rfl⟩

/-- Witness for C6: a successful first commit from a fresh dirty store,
then a second commit touching nothing. -/
theorem commit_idempotent_witness :
    (commit 255 allOk
      (commit 255 allOk ⟨some (fun _ => 0), 16, 32, some (fun _ => 255), 0, true⟩
        (fun _ => 0)).st
      (commit 255 allOk ⟨some (fun _ => 0), 16, 32, some (fun _ => 255), 0, true⟩
        (fun _ => 0)).fl).ok = true ∧
    (commit 255 allOk
      (commit 255 allOk ⟨some (fun _ => 0), 16, 32, some (fun _ => 255), 0, true⟩
        (fun _ => 0)).st
      (commit 255 allOk ⟨some (fun _ => 0), 16, 32, some (fun _ => 255), 0, true⟩
        (fun _ => 0)).fl).ops = 0 := by
  apply commit_idempotent
  rfl

/-- C7. Buffer round-trip without commit: on a store configured with
size S, a write to an in-range address followed by a read of the same
address returns the written byte. Neither operation takes the flash as
an argument: by construction they cannot touch it. -/
theorem write_read_roundtrip (S a v : Nat) (s : EEPROMState) (d : Nat → Nat)
    (hsz : s.size = S) (hd : s.data = some d) (ha : a < S) (hv : v < 256) :
    read (write s (a : Nat) v) (a : Nat) = v := by
  rw [write_spec s d a v hd (by omega)]
  by_cases hchg : d a ≠ v
  · rw [if_pos hchg]
    rw [read_some _ (fun i => if i = a then v else d i) a rfl (by dsimp only; omega)]
    simp
  · rw [if_neg hchg]
    push_neg at hchg
    rw [read_some s d a hd (by omega)]
    exact hchg

/-- Witness for C7: write 7 at address 3 of a 16-byte store, read it
back. -/
theorem write_read_roundtrip_witness :
    read (write ⟨some (fun _ => 0), 16, 32, some (fun _ => 255), 0, true⟩ (3 : Nat) 7)
      (3 : Nat) = 7 :=
  write_read_roundtrip 16 3 7 ⟨some (fun _ => 0), 16, 32, some (fun _ => 255), 0, true⟩
    (fun _ => 0) rfl rfl (by decide) (by decide)

/-- C9. wipe on a store that was never successfully configured (size 0
or bitmap size 0) returns false, performs no flash erase (zero flash
operations) and changes neither the state nor the flash. -/
theorem wipe_unconfigured (eb : Nat) (eraseOk : Bool) (s : EEPROMState) (fl : Flash)
    (h : s.size = 0 ∨ s.bitmapSize = 0) :
    wipe eb eraseOk s fl = (s, fl, false, 0) := by
  unfold wipe
  rw [if_pos h]

/-- Witness for C9 on the default-constructed store. -/
theorem wipe_unconfigured_witness :
    wipe 255 true ⟨none, 0, 0, none, 0, false⟩ (fun _ => 0)
      = (⟨none, 0, 0, none, 0, false⟩, (fun _ => 0), false, 0) :=
  wipe_unconfigured 255 true ⟨none, 0, 0, none, 0, false⟩ (fun _ => 0) (Or.inl rfl)

/-- C8. Invalid bitmap handling: a begin call at matching size S over a
block whose bitmap bit 1 equals the erased value recorded in bit 0 sets
the offset to 0 (no valid slot), leaves the store dirty, and
percentUsed then returns the sentinel -1. -/
theorem invalid_bitmap_recovery (S : Nat) (s : EEPROMState) (fl : Flash)
    (h4 : S % 4 = 0) (h16 : 16 ≤ S) (hub : S ≤ SPI_FLASH_SEC_SIZE - 8)
    (hhdr : readWord32 fl 0 = S)
    (hbit : nthBit (fl 4) 1 = nthBit (fl 4) 0) :
    (beginOp s fl S).offset = 0 ∧ (beginOp s fl S).dirty = true ∧
    percentUsed (beginOp s fl S) = -1 := by
  obtain ⟨hM4, _, _, _, hMS, _⟩ := layoutOK_valid S h4 h16 hub
  have hub2 : S ≤ 4088 := by simpa [SPI_FLASH_SEC_SIZE] using hub
  have hmc : MatchCond (fun i => fl (4 + i))
      (nthBit ((fun i => fl (4 + i)) 0) 0 != 0) 1 := by
    unfold MatchCond
    have e1 : nthBit ((fun i => fl (4 + i)) (1 / 8)) (1 % 8) = nthBit (fl 4) 1 := rfl
    have e0 : ((nthBit ((fun i => fl (4 + i)) 0) 0) != 0)
        = ((nthBit (fl 4) 0) != 0) := rfl
    rw [e1, e0]
    by_cases hz : nthBit (fl 4) 0 = 0
    · right
      exact ⟨by simp [hz], by rw [hbit, hz]⟩
    · left
      exact ⟨by simpa using hz, by rw [hbit]; exact hz⟩
  simp only [beginOp]
  rw [if_neg (show ¬(S = 0 ∨ SPI_FLASH_SEC_SIZE - 8 < S) by
    simp only [SPI_FLASH_SEC_SIZE]; omega)]
  rw [if_neg (show ¬ S < EEPROM_MIN_SIZE by simp only [EEPROM_MIN_SIZE]; omega)]
  rw [show (S + 3) / 4 * 4 = S by omega]
  rw [if_neg (show ¬ readWord32 fl 0 ≠ S by simp [hhdr])]
  have hscan : offsetFromBitmap ⟨some (fun _ => 0), S, computeBitmapSize S,
      some (fun i => fl (4 + i)), s.offset, true⟩ = 0 := by
    show (if computeBitmapSize S = 0 then 0
      else if MatchCond (fun i => fl (4 + i))
          (nthBit ((fun i => fl (4 + i)) 0) 0 != 0) 1 then 0
        else scanLoop (fun i => fl (4 + i)) S
          (nthBit ((fun i => fl (4 + i)) 0) 0 != 0)
          (8 * computeBitmapSize S - 2) 2 (4 + computeBitmapSize S)) = 0
    rw [if_neg (by omega), if_pos hmc]
  rw [hscan]
  rw [if_pos (Or.inl rfl)]
  refine ⟨rfl, rfl, ?_⟩
  unfold percentUsed
  rw [if_pos (Or.inl rfl)]

/-- Witness for C8: size header 16 and an all-255 bitmap byte (bit 1
equals bit 0), starting from the default store. -/
theorem invalid_bitmap_recovery_witness :
    (beginOp ⟨none, 0, 0, none, 0, false⟩
      (writeBytes (fun _ => 255) 0 (word32Bytes 16) 4) 16).offset = 0 :=
  (invalid_bitmap_recovery 16 ⟨none, 0, 0, none, 0, false⟩
    (writeBytes (fun _ => 255) 0 (word32Bytes 16) 4)
    (by decide) (by decide) (by decide) (by decide) (by decide)).1

/-- C10. A bitmap write that fails after a successful data-slot write
leaves commit reporting failure, the offset pointing at the slot just
written (not restored), and the store dirty; a subsequent successful
commit, when room remains, appends at the next slot rather than
rewriting the same one. -/
lemma commit_nonfull_offset (eb : Nat) (s : EEPROMState) (fl : Flash)
    (hd : ∃ d, s.data = some d) (hb : ∃ b, s.bitmap = some b)
    (hsz : s.size ≠ 0) (hbsz : s.bitmapSize ≠ 0) (hdirty : s.dirty = true)
    (hnf : ¬ Full s) :
    (commit eb allOk s fl).ok = true ∧
    (commit eb allOk s fl).st.offset = (s.offset + s.size) % 65536 := by
  obtain ⟨d, hd⟩ := hd
  obtain ⟨b, hb⟩ := hb
  rw [commit_nonfull_red eb allOk s fl d b hd hb hsz hbsz hdirty hnf,
    commitWrite_ok allOk _ _ d _ _ _ rfl rfl]
  exact ⟨rfl, rfl⟩

theorem bitmapfail_keeps_slot (eb : Nat) (f : FlashFaults) (s : EEPROMState) (fl : Flash)
    (d b : Nat → Nat) (hd : s.data = some d) (hb : s.bitmap = some b)
    (hsz : s.size ≠ 0) (hbsz : s.bitmapSize ≠ 0) (hdirty : s.dirty = true)
    (hdw : f.dataWriteOk = true) (hbw : f.bitmapWriteOk = false)
    (hfe : Full s → f.eraseOk = true ∧ f.sizeWriteOk = true) :
    (commit eb f s fl).ok = false ∧
    (commit eb f s fl).st.dirty = true ∧
    (commit eb f s fl).st.offset =
      (if Full s then 4 + s.bitmapSize else (s.offset + s.size) % 65536) ∧
    ((if Full s then 4 + s.bitmapSize else (s.offset + s.size) % 65536) ≠ 0 →
      (if Full s then 4 + s.bitmapSize else (s.offset + s.size) % 65536) + s.size + s.size
        ≤ SPI_FLASH_SEC_SIZE →
      (commit eb allOk (commit eb f s fl).st (commit eb f s fl).fl).ok = true ∧
      (commit eb allOk (commit eb f s fl).st (commit eb f s fl).fl).st.offset =
        ((if Full s then 4 + s.bitmapSize else (s.offset + s.size) % 65536) + s.size)
          % 65536) := by
  by_cases hfull : Full s
  · obtain ⟨he, hsw⟩ := hfe hfull
    rw [commit_full_red eb f s fl d b hd hb hsz hbsz hdirty hfull he hsw,
      commitWrite_bitmapfail _ _ _ _ _ _ _ hdw hbw]
    rw [if_pos hfull]
    refine ⟨rfl, hdirty, rfl, ?_⟩
    intro hne hroom
    dsimp only
    refine commit_nonfull_offset eb _ _ ?_ ?_ ?_ ?_ ?_ ?_
    · exact ⟨d, hd⟩
    · exact ⟨_, rfl⟩
    · exact hsz
    · exact hbsz
    · exact hdirty
    · unfold Full
      dsimp only
      simp only [SPI_FLASH_SEC_SIZE] at hroom ⊢
      omega
  · rw [commit_nonfull_red eb f s fl d b hd hb hsz hbsz hdirty hfull,
      commitWrite_bitmapfail _ _ _ _ _ _ _ hdw hbw]
    rw [if_neg hfull]
    refine ⟨rfl, hdirty, rfl, ?_⟩
    intro hne hroom
    dsimp only
    refine commit_nonfull_offset eb _ _ ?_ ?_ ?_ ?_ ?_ ?_
    · exact ⟨d, hd⟩
    · exact ⟨_, rfl⟩
    · exact hsz
    · exact hbsz
    · exact hdirty
    · unfold Full
      dsimp only
      simp only [SPI_FLASH_SEC_SIZE] at hroom ⊢
      omega

/-- Witness for C10: fresh dirty store, bitmap write failing; commit
reports failure. -/
theorem bitmapfail_keeps_slot_witness :
    (commit 255 ⟨true, true, true, false⟩
      ⟨some (fun _ => 0), 16, 32, some (fun _ => 255), 0, true⟩ (fun _ => 0)).ok
      = false :=
  (bitmapfail_keeps_slot 255 ⟨true, true, true, false⟩
    ⟨some (fun _ => 0), 16, 32, some (fun _ => 255), 0, true⟩ (fun _ => 0)
    (fun _ => 0) (fun _ => 255) rfl rfl (by decide) (by decide) rfl rfl rfl
    (fun _ => ⟨rfl, rfl⟩)).1

end ESPEEPROM
